import Mathlib

/-!
Verification of the LADI backend multi-method evaluation pipeline.

This file gives a shallow embedding of the core evaluation pipeline of the
repository (text-extraction gate, template prompt resolution, per-category
model invocation with retry, whole-job timeout, and cross-method score
aggregation) and proves or refutes the frozen claims about it.

Modelling conventions:
- Python strings are embedded as lists of characters (PyStr); the Python
  string operations used by the code (split, strip, lower, startswith,
  slicing, substring containment, str.isdigit) are reimplemented over
  PyStr with the same semantics on ASCII text.
- Python float rounding (round) is embedded as exact round-half-to-even
  on integer fractions (pyRoundDiv); every rounding site in the code
  rounds a value of the form (sum of ints) / (count), which the double
  type represents exactly in the ranges the code produces.
- Python dicts are embedded as insertion-ordered association lists; dict
  VALUES that are themselves mutable dicts (the per-category result dicts
  of the orchestrator) are embedded as references (indices) into an
  explicit store, because the orchestrator mutates them through aliases.
- The model call and the JSON library are opaque to the code under
  analysis: a model response is embedded as either a parsed JSON object
  or unparseable raw text.
-/

/-! ## Python string primitives over PyStr -/

/-- Python strings, embedded as character lists. -/
abbrev PyStr := List Char

/-- Worker for pySplit: fuel-indexed scan that splits on the first
occurrence of the separator, mirroring Python str.split with a non-empty
separator. The fuel is always sufficient (length + 1), so the zero-fuel
branch is unreachable. -/
def splitGo (sep : PyStr) : Nat → PyStr → PyStr → List PyStr
  | _, [], acc => [acc.reverse]
  | Nat.succ f, c :: rest, acc =>
    if sep.isPrefixOf (c :: rest) then
      acc.reverse :: splitGo sep f (List.drop (sep.length - 1) rest) []
    else
      splitGo sep f rest (c :: acc)
  | 0, s, acc => [acc.reverse ++ s]

/-- Python str.split(sep) for a non-empty separator: non-overlapping
occurrences, scanned left to right. -/
def pySplit (sep s : PyStr) : List PyStr :=
  if sep.isEmpty then [s] else splitGo sep (s.length + 1) s []

/-- Python str.strip(): remove leading and trailing whitespace. -/
def pyStrip (s : PyStr) : PyStr :=
  ((s.dropWhile Char.isWhitespace).reverse.dropWhile Char.isWhitespace).reverse

/-- Python str.lower() on ASCII text. -/
def pyLower (s : PyStr) : PyStr := s.map Char.toLower

/-- Python substring containment (needle in hay). -/
def pyContainsSub (needle : PyStr) : PyStr → Bool
  | [] => needle.isEmpty
  | c :: t => needle.isPrefixOf (c :: t) || pyContainsSub needle t

/-- Python int() applied to a non-empty string of ASCII digits, as used on
the digit characters filtered out of a line. -/
def digitsVal (s : PyStr) : Nat :=
  (s.filter Char.isDigit).foldl (fun a c => a * 10 + (c.toNat - 48)) 0

/-- Python round() of the exact fraction num / den (den positive):
round-half-to-even, the semantics of round on Python floats. -/
def pyRoundDiv (num den : ℤ) : ℤ :=
  let f := Int.fdiv num den
  let r2 := 2 * (num - f * den)
  if r2 < den then f
  else if den < r2 then f + 1
  else if f % 2 = 0 then f else f + 1

/-- Score merge of upload_routes.perform_multi_method_evaluation:
round((existing_score + new_score) / 2). -/
def mergeScore (e n : ℤ) : ℤ := pyRoundDiv (e + n) 2

/-- Overall-score formula used by both gpt_evaluator and the orchestrator:
round(sum(scores) / len(scores)) if scores else 0. -/
def overallScoreOf (scores : List ℤ) : ℤ :=
  if scores.isEmpty then 0 else pyRoundDiv scores.sum scores.length

/-! ## Data model: per-category evaluation results

A CategoryResult embeds the per-category result dict. The evaluators do
not all populate the same keys (the retry-exhausted failure dict of
gpt_evaluator has no strengths or areas_for_improvement keys, and the
template evaluator dicts have no status key), so those fields are
Option-valued: none means the key is absent from the dict. -/

/-- Per-category result dict produced by the evaluators. -/
structure CategoryResult where
  score : ℤ
  summary : PyStr
  strengths : Option (List PyStr)
  areas_for_improvement : Option (List PyStr)
  status : Option String
deriving DecidableEq, Repr

instance : Inhabited CategoryResult :=
  ⟨{ score := 0, summary := [], strengths := none,
     areas_for_improvement := none, status := none }⟩

/-! ## template_evaluator.py: template prompt resolution -/

/-- Sheet-name keyword table of
TemplateEvaluator.extract_prompts_from_content, in source order. -/
def category_mapping : List (String × List PyStr) :=
  [("line-editing", ["line editing".data, "line-editing".data,
                     "copy editing".data, "grammar".data]),
   ("plot", ["plot".data, "story structure".data, "narrative".data]),
   ("character", ["character".data, "characters".data,
                  "characterization".data]),
   ("flow", ["flow".data, "book flow".data, "rhythm".data,
             "transitions".data]),
   ("worldbuilding", ["worldbuilding".data, "world building".data,
                      "setting".data]),
   ("readiness", ["readiness".data, "ladi readiness".data,
                  "overall".data, "final".data])]

/-- Default prompt set of TemplateEvaluator.get_default_prompts. -/
def default_prompts : List (String × PyStr) :=
  [("line-editing", ("Analyze the manuscript for grammar, syntax, clarity, and prose fluidity. Provide a score out of 100 and a detailed summary of findings.").data),
   ("plot", ("Evaluate the plot structure, pacing, narrative tension, and resolution effectiveness. Provide a score out of 100 and a detailed summary of findings.").data),
   ("character", ("Assess character depth, motivation, consistency, and emotional impact throughout the manuscript. Provide a score out of 100 and a detailed summary of findings.").data),
   ("flow", ("Evaluate the book flow, including rhythm, transitions, escalation patterns, and narrative cohesion. Provide a score out of 100 and a detailed summary of findings.").data),
   ("worldbuilding", ("Analyze the worldbuilding and setting for depth, continuity, and originality. Provide a score out of 100 and a detailed summary of findings.").data),
   ("readiness", ("Provide an overall LADI readiness assessment using our proprietary scoring system. Consider all aspects of the manuscript and assign a readiness tier (High Readiness, Moderate Readiness, Needs Work, etc.) with a score out of 100 and detailed justification.").data)]

/-- First category of the keyword table whose keyword set matches the
lowercased sheet name; the loop breaks at the first match, so a sheet
contributes to at most one category. -/
def firstMatchCategory (sheetName : PyStr) : Option String :=
  (category_mapping.find? fun p =>
    p.2.any fun kw => pyContainsSub (pyLower kw) (pyLower sheetName)).map (·.1)

/-- Body cleanup of TemplateEvaluator.clean_prompt_content: strip each
line, drop empty lines and sheet-marker lines, join with spaces. -/
def clean_prompt_content (content : PyStr) : PyStr :=
  List.intercalate " ".data
    (((pySplit "\n".data content).map pyStrip).filter fun l =>
      !l.isEmpty && !("===".data.isPrefixOf l))

/-- Decomposition of one piece of the sheet-marker split into sheet name
and sheet body, mirroring the two skip conditions of the loop in
extract_prompts_from_content: whitespace-only pieces are skipped, and so
are pieces without a newline (no body after the name line). -/
def parseSheetPiece (piece : PyStr) : Option (PyStr × PyStr) :=
  let t := pyStrip piece
  if t.isEmpty then none
  else
    match pySplit "\n".data t with
    | [] => none
    | [_] => none
    | name :: rest =>
      some (pyStrip name, pyStrip (List.intercalate "\n".data rest))

/-- Insertion-ordered dict write: replace the value of the first entry
with the key, or append a new entry. -/
def dictInsert {α : Type} (m : List (String × α)) (k : String) (v : α) :
    List (String × α) :=
  match m with
  | [] => [(k, v)]
  | (k', v') :: rest =>
    if k' = k then (k, v) :: rest else (k', v') :: dictInsert rest k v

/-- Loop body of extract_prompts_from_content for one piece of the
sheet-marker split: skip unusable pieces and unmatched sheet names, store
the cleaned body under the first matching category otherwise. -/
def resolveSheetStep (acc : List (String × PyStr)) (piece : PyStr) :
    List (String × PyStr) :=
  match parseSheetPiece piece with
  | none => acc
  | some (name, body) =>
    match firstMatchCategory name with
    | none => acc
    | some cat => dictInsert acc cat (clean_prompt_content body)

/-- TemplateEvaluator.extract_prompts_from_content: split the extracted
text on sheet markers, map matching sheet names to category prompts, and
fall back to the full default set when nothing matched. -/
def extract_prompts_from_content (content : PyStr) : List (String × PyStr) :=
  let prompts :=
    (pySplit ("=== SHEET:").data content).foldl resolveSheetStep []
  if prompts.isEmpty then default_prompts else prompts

/-- Sheets of an extracted text that the resolver loop actually considers:
the pieces of the marker split that carry a name line and a body. -/
def parsedSheets (content : PyStr) : List (PyStr × PyStr) :=
  (pySplit ("=== SHEET:").data content).filterMap parseSheetPiece

/-! ## template_evaluator.py: text fallback extraction -/

/-- Predicate of the score-scan loop of extract_evaluation_from_text: the
line mentions score (case-insensitively) and contains a digit. -/
def scoreLineCond (line : PyStr) : Bool :=
  pyContainsSub "score".data (pyLower line) && line.any Char.isDigit

/-- TemplateEvaluator.extract_evaluation_from_text: fallback extraction
when JSON parsing of the model response fails. The first 500 characters
become the summary; the first line mentioning score with a digit supplies
the score (all its digits concatenated, reduced mod 100 when above 100),
otherwise the score is 0. The category id parameter is unused, as in the
source. -/
def extract_evaluation_from_text (text : PyStr) (_category_id : String) :
    CategoryResult :=
  let lines := pySplit "\n".data text
  let score : ℤ :=
    match lines.find? scoreLineCond with
    | none => 0
    | some line =>
      let v := digitsVal line
      if 100 < v then ((v : ℤ) % 100) else (v : ℤ)
  { score := score
    summary := text.take 500
    strengths := some []
    areas_for_improvement := some []
    status := none }

-- sanity probes (concrete evaluation of the embedding)
example : firstMatchCategory "Line Editing Notes".data = some "line-editing" := by decide
example : firstMatchCategory "PLOT".data = some "plot" := by decide
example : firstMatchCategory "Misc".data = none := by decide
example : (extract_evaluation_from_text "The score is 85".data "plot").score = 85 := by
  decide
example : (extract_evaluation_from_text "score 123".data "plot").score = 23 := by
  decide
example : (extract_evaluation_from_text "no digits here".data "plot").score = 0 := by
  decide

/-! ## gpt_evaluator.py: per-category model invocation with retry

The OpenAI client call and json.loads are external; a model response is
embedded as either the JSON object json.loads produced (with each
expected key optional, matching the .get defaults in the code) or the raw
text on which json.loads raised. Each call attempt either raises (a
network or API exception) or yields a response. -/

/-- Parsed JSON object of a model response; none fields embed absent keys. -/
structure JsonEval where
  score : Option ℤ
  summary : Option PyStr
  strengths : Option (List PyStr)
  areas_for_improvement : Option (List PyStr)
deriving DecidableEq, Repr

/-- Model response: a JSON-parseable body or unparseable raw text. -/
inductive ModelResponse where
  | json (o : JsonEval)
  | text (raw : PyStr)
deriving DecidableEq, Repr

/-- Outcome of one attempt of the model call inside
GPTEvaluator.evaluate_category. -/
inductive AttemptOutcome where
  | raises (msg : PyStr)
  | responds (r : ModelResponse)
deriving DecidableEq, Repr

/-- Result dict built by GPTEvaluator.evaluate_category from a JSON-parsed
response, with the .get defaults of the source. -/
def gptJsonResult (o : JsonEval) : CategoryResult :=
  { score := o.score.getD 0
    summary := o.summary.getD ("No summary provided").data
    strengths := some (o.strengths.getD [])
    areas_for_improvement := some (o.areas_for_improvement.getD [])
    status := some "completed" }

/-- Fallback dict of GPTEvaluator.evaluate_category when JSON parsing of
the response fails: fixed score 75 and the raw response as summary. -/
def gptFallbackResult (content : PyStr) : CategoryResult :=
  { score := 75
    summary := content
    strengths := some []
    areas_for_improvement := some []
    status := some "completed" }

/-- Failure dict returned after exhausting the retries; the summary embeds
the message of the last exception, and the dict carries no strengths or
areas_for_improvement keys. -/
def gptFailedResult (msg : PyStr) : CategoryResult :=
  { score := 0
    summary := ("Error during evaluation after 3 attempts: ").data ++ msg
    strengths := none
    areas_for_improvement := none
    status := some "failed" }

/-- Processing of a completed model call in GPTEvaluator.evaluate_category:
parse as JSON, or degrade to the fixed-75 fallback. -/
def processGptResponse : ModelResponse → CategoryResult
  | .json o => gptJsonResult o
  | .text raw => gptFallbackResult raw

/-- Retry loop of GPTEvaluator.evaluate_category: remaining counts the
attempts still allowed (3 at entry), idx is the index of the next attempt,
delay the current backoff. Returns the result dict, the list of sleeps
performed, and the number of attempts made. -/
def evalCategoryGo (outcomes : Nat → AttemptOutcome) :
    Nat → Nat → Nat → CategoryResult × List Nat × Nat
  | 0, idx, _ => (default, [], idx)
  | Nat.succ remaining, idx, delay =>
    match outcomes idx with
    | .responds r => (processGptResponse r, [], idx + 1)
    | .raises msg =>
      if remaining = 0 then (gptFailedResult msg, [], idx + 1)
      else
        let rec_ := evalCategoryGo outcomes remaining (idx + 1) (delay * 2)
        (rec_.1, delay :: rec_.2.1, rec_.2.2)

/-- GPTEvaluator.evaluate_category: up to 3 attempts, base delay 2 seconds
doubling after each failed attempt. -/
def evaluate_category (outcomes : Nat → AttemptOutcome) :
    CategoryResult × List Nat × Nat :=
  evalCategoryGo outcomes 3 0 2

/-- The six evaluation category ids, in the iteration order of the
evaluation_categories dict of GPTEvaluator. -/
def evaluationCategoryIds : List String :=
  ["line-editing", "plot", "character", "flow", "worldbuilding", "readiness"]

/-- GPTEvaluator.perform_comprehensive_evaluation with a live client:
evaluates every category in sequence (a per-category failure degrades to
a failed dict inside evaluate_category and never aborts the loop) and
computes the overall score as the rounded mean. Returns the categories
dict and the overall score. -/
def perform_comprehensive_evaluation
    (outcomes : String → Nat → AttemptOutcome) :
    List (String × CategoryResult) × ℤ :=
  let cats := evaluationCategoryIds.map fun cid =>
    (cid, (evaluate_category (outcomes cid)).1)
  (cats, overallScoreOf (cats.map fun p => p.2.score))

/-- GPTEvaluator.evaluate_manuscript: rejects text shorter than 100
characters after strip, then runs the comprehensive evaluation. The
15000-character truncation only bounds the text sent to the model and is
immaterial to the embedded outcome schedules. -/
def evaluate_manuscript (text : PyStr)
    (outcomes : String → Nat → AttemptOutcome) :
    Except PyStr (List (String × CategoryResult) × ℤ) :=
  if text.isEmpty || (pyStrip text).length < 100 then
    .error ("Manuscript text is too short for meaningful evaluation").data
  else
    .ok (perform_comprehensive_evaluation outcomes)

/-! ## upload_routes.py: extraction gate of evaluate_document -/

/-- Extraction gate of the upload route: the job fails as an extraction
failure when the extracted text is empty or shorter than 50 characters
after strip. -/
def extractionGatePasses (text : PyStr) : Bool :=
  !(text.isEmpty || decide ((pyStrip text).length < 50))

/-- Outcome of the route-level evaluation chain for a basic-method job. -/
inductive RouteOutcome where
  | rejectedExtraction
  | completed (cats : List (String × CategoryResult)) (overall : ℤ)
deriving DecidableEq, Repr

/-- Route chain for a basic-method job: the extraction gate runs first;
past the gate, the orchestrator invokes evaluate_manuscript, whose own
too-short exception is caught by the basic-method handler (the job
continues with no categories). -/
def routeBasicEvaluation (text : PyStr)
    (outcomes : String → Nat → AttemptOutcome) : RouteOutcome :=
  if extractionGatePasses text then
    match evaluate_manuscript text outcomes with
    | .error _ => .completed [] (overallScoreOf [])
    | .ok (cats, overall) => .completed cats overall
  else
    .rejectedExtraction

-- sanity probes
example :
    (evaluate_category fun _ => .raises "boom".data) =
      (gptFailedResult "boom".data, [2, 4], 3) := by decide
example :
    (evaluate_category fun i =>
      if i = 0 then .raises "x".data else .responds (.text "hi".data)).2 =
      ([2], 2) := by decide

/-! ## template_evaluator.py: per-category evaluation with a custom prompt -/

/-- Result dict built by TemplateEvaluator.evaluate_category_with_prompt
from a JSON-parsed response; this dict carries no status key. -/
def templateJsonResult (o : JsonEval) : CategoryResult :=
  { score := o.score.getD 0
    summary := o.summary.getD ("No summary available").data
    strengths := some (o.strengths.getD [])
    areas_for_improvement := some (o.areas_for_improvement.getD [])
    status := none }

/-- Response processing of TemplateEvaluator.evaluate_category_with_prompt:
parse as JSON, or fall back to the heuristic text extraction. -/
def templateProcessResponse (resp : ModelResponse) (cid : String) :
    CategoryResult :=
  match resp with
  | .json o => templateJsonResult o
  | .text raw => extract_evaluation_from_text raw cid

/-! ## gpt_evaluator.py: mock evaluation (no client configured) -/

/-- Fixed mock results of GPTEvaluator.generate_mock_evaluation. -/
def generate_mock_evaluation : List (String × CategoryResult) :=
  [("line-editing",
    { score := 85
      summary := ("Strong prose with excellent clarity. Minor grammar inconsistencies noted in dialogue sections.").data
      strengths := some [("Clear writing style").data, ("Good sentence structure").data]
      areas_for_improvement := some [("Dialogue punctuation").data, ("Consistent tense usage").data]
      status := some "completed" }),
   ("plot",
    { score := 78
      summary := ("Well-structured narrative with good pacing. The middle section could benefit from increased tension.").data
      strengths := some [("Clear story arc").data, ("Good pacing").data]
      areas_for_improvement := some [("Middle section tension").data, ("Subplot integration").data]
      status := some "completed" }),
   ("character",
    { score := 92
      summary := ("Exceptional character development with clear motivations and authentic dialogue throughout.").data
      strengths := some [("Deep character development").data, ("Authentic dialogue").data]
      areas_for_improvement := some [("Minor character consistency").data]
      status := some "completed" }),
   ("flow",
    { score := 80
      summary := ("Smooth transitions between scenes. Some chapters end abruptly but overall flow is engaging.").data
      strengths := some [("Good scene transitions").data, ("Engaging flow").data]
      areas_for_improvement := some [("Chapter endings").data, ("Pacing consistency").data]
      status := some "completed" }),
   ("worldbuilding",
    { score := 88
      summary := ("Rich, immersive setting with consistent internal logic. Great attention to environmental details.").data
      strengths := some [("Immersive setting").data, ("Consistent world logic").data]
      areas_for_improvement := some [("More background details").data]
      status := some "completed" }),
   ("readiness",
    { score := 84
      summary := ("High readiness for publication. Minor revisions recommended before final submission.").data
      strengths := some [("Overall quality").data, ("Publication ready").data]
      areas_for_improvement := some [("Minor revisions needed").data]
      status := some "completed" })]

/-! ## upload_routes.py: perform_multi_method_evaluation

The orchestrator merges per-method category dicts into combined_categories
by reference: the first contribution for a category stores the SAME dict
object that also sits inside all_results, and later merges assign through
that shared reference. The embedding therefore keeps the per-category
dicts in an explicit store of cells; combined_categories and all_results
hold cell indices.

Timing model: the 8-minute timer flag of the code is cooperative; the
orchestrator only consults it at discrete points. The embedding counts
one time unit per category evaluation performed and reads the flag as
(deadline <= elapsed); the deadline parameter T generalises the fixed
480-second budget of the code. Method outcomes (what the evaluators
returned, or that they raised) are inputs of the embedding, since the
evaluator calls are network interactions. -/

instance {ε α : Type} [DecidableEq ε] [DecidableEq α] :
    DecidableEq (Except ε α) := fun a b =>
  match a, b with
  | .error e, .error f =>
    if h : e = f then .isTrue (by subst h; rfl)
    else .isFalse fun hh => h (by injection hh)
  | .error _, .ok _ => .isFalse fun hh => Except.noConfusion hh
  | .ok _, .error _ => .isFalse fun hh => Except.noConfusion hh
  | .ok x, .ok y =>
    if h : x = y then .isTrue (by subst h; rfl)
    else .isFalse fun hh => h (by injection hh)

/-- Mutable orchestrator state: the cell store of per-category result
dicts, the combined_categories dict (category id to cell), the
all_results dict (method key to its categories dict, category id to
cell), and the elapsed time in category-evaluation units. -/
structure OrchState where
  store : List CategoryResult
  combined : List (String × Nat)
  all_results : List (String × List (String × Nat))
  elapsed : Nat
deriving DecidableEq, Repr

/-- Initial orchestrator state. -/
def initState : OrchState := ⟨[], [], [], 0⟩

/-- Merge of one category contribution (a cell index) into
combined_categories: a first contribution is stored as-is (the cell is
shared with all_results), a later one overwrites the score of the stored
cell with the rounded pairwise mean. -/
def mergeRef (s : OrchState) (cid : String) (idx : Nat) : OrchState :=
  match s.combined.lookup cid with
  | none => { s with combined := s.combined ++ [(cid, idx)] }
  | some j =>
    let e := (s.store.getD j default).score
    let n := (s.store.getD idx default).score
    { s with
        store := s.store.set j
          { s.store.getD j default with score := mergeScore e n } }

/-- Processing of one successful method evaluation: allocate a cell per
category dict, record the method entry in all_results, account for the
evaluation time, and fold every contribution into combined_categories. -/
def processMethodResult (key : String)
    (res : List (String × CategoryResult)) (s : OrchState) : OrchState :=
  let base := s.store.length
  let refs := res.enum.map fun p => (p.2.1, base + p.1)
  let s1 : OrchState :=
    { store := s.store ++ res.map (·.2)
      combined := s.combined
      all_results := s.all_results ++ [(key, refs)]
      elapsed := s.elapsed + res.length }
  refs.foldl (fun st p => mergeRef st p.1 p.2) s1

/-- One template iteration of the template method: some res is the
categories dict the template evaluation produced, none is a template
lookup or parse failure (logged and skipped by the code). -/
structure TemplateRun where
  id : String
  result : Option (List (String × CategoryResult))
deriving DecidableEq, Repr

/-- One entry of evaluation_methods together with what its evaluator
produced: basic none embeds an evaluate_manuscript exception (caught and
skipped), basic (some res) the returned categories dict, and template the
per-template outcomes. -/
inductive MethodRun where
  | basic (result : Option (List (String × CategoryResult)))
  | template (templates : List TemplateRun)
deriving DecidableEq, Repr

/-- Per-template loop of the template method: the timeout flag is checked
before every template; a set flag raises TimeoutError (the error carries
the elapsed time at the raise, for bookkeeping only). -/
def runTemplates (T : Nat) : List TemplateRun → OrchState → Except Nat OrchState
  | [], s => .ok s
  | t :: rest, s =>
    if T ≤ s.elapsed then .error s.elapsed
    else
      match t.result with
      | none => runTemplates T rest s
      | some res =>
        runTemplates T rest (processMethodResult ("template_" ++ t.id) res s)

/-- Method loop of perform_multi_method_evaluation: the timeout flag is
checked at the top of every method iteration; a basic-method exception is
caught and skipped. -/
def runMethods (T : Nat) : List MethodRun → OrchState → Except Nat OrchState
  | [], s => .ok s
  | m :: rest, s =>
    if T ≤ s.elapsed then .error s.elapsed
    else
      match m with
      | .basic none => runMethods T rest s
      | .basic (some res) =>
        runMethods T rest (processMethodResult "basic" res s)
      | .template ts =>
        match runTemplates T ts s with
        | .error n => .error n
        | .ok s2 => runMethods T rest s2

/-- Result object of perform_multi_method_evaluation, with the shared
cells resolved to their final values. -/
structure EvaluationOutput where
  categories : List (String × CategoryResult)
  overall_score : ℤ
  all_results : List (String × List (String × CategoryResult))
deriving DecidableEq, Repr

/-- Construction of the returned result object: combined categories (cells
resolved), overall score as the rounded mean of the combined scores, and
all_results with its cells resolved to their final, possibly merged
values. -/
def finishJob (s : OrchState) : EvaluationOutput :=
  let cats := s.combined.map fun p => (p.1, s.store.getD p.2 default)
  { categories := cats
    overall_score := overallScoreOf (cats.map fun p => p.2.score)
    all_results := s.all_results.map fun m =>
      (m.1, m.2.map fun p => (p.1, s.store.getD p.2 default)) }

/-- upload_routes.perform_multi_method_evaluation: run the methods under
the deadline T, check the flag once more before building the result, and
either raise TimeoutError (error, no partial result) or return the
combined result. The second component of the ok value is the number of
category evaluations performed. -/
def perform_multi_method_evaluation (methods : List MethodRun) (T : Nat) :
    Except Nat (EvaluationOutput × Nat) :=
  match runMethods T methods initState with
  | .error n => .error n
  | .ok s =>
    if T ≤ s.elapsed then .error s.elapsed else .ok (finishJob s, s.elapsed)

/-- Category contributions of a template-method run, in evaluation order. -/
def templateItems (ts : List TemplateRun) : List (String × CategoryResult) :=
  ts.foldr (fun t acc => t.result.getD [] ++ acc) []

/-- Category contributions of one method entry, in evaluation order. -/
def methodItems : MethodRun → List (String × CategoryResult)
  | .basic none => []
  | .basic (some res) => res
  | .template ts => templateItems ts

/-- All category contributions of a job, in evaluation order. -/
def flatItems (ms : List MethodRun) : List (String × CategoryResult) :=
  ms.foldr (fun m acc => methodItems m ++ acc) []

/-- Total number of category evaluations a job performs when run to
completion; one time unit each. -/
def totalCost (ms : List MethodRun) : Nat := (flatItems ms).length

/-- Scores contributed to one category over a job, in evaluation order. -/
def contribScores (ms : List MethodRun) (cid : String) : List ℤ :=
  (flatItems ms).filterMap fun p => if p.1 = cid then some p.2.score else none

/-- Pure value-semantics merge of one score into the combined dict:
first contribution appended, later contribution replaces the stored score
with the rounded pairwise mean. -/
def valueMergeOne (m : List (String × ℤ)) (cid : String) (n : ℤ) :
    List (String × ℤ) :=
  match m with
  | [] => [(cid, n)]
  | (k, e) :: rest =>
    if k = cid then (k, mergeScore e n) :: rest
    else (k, e) :: valueMergeOne rest cid n

/-- Left fold of pairwise rounded means with an optional accumulator. -/
def mergeFoldFrom : Option ℤ → List ℤ → Option ℤ
  | o, [] => o
  | none, x :: xs => mergeFoldFrom (some x) xs
  | some e, x :: xs => mergeFoldFrom (some (mergeScore e x)) xs

/-- Left fold of pairwise rounded means: none for no contribution, the
first contribution as-is, every later one averaged in. -/
def mergeFold (l : List ℤ) : Option ℤ := mergeFoldFrom none l

/-- Modelled from the spec: the deadline policy as the spec states it,
checking the deadline at the start of EVERY category-evaluation step (the
code of perform_multi_method_evaluation checks only per method, per
template, and before returning). Used to compare the code against the
claimed per-category-check behavior. -/
def specRunItems (T : Nat) :
    List (String × CategoryResult) → List (String × ℤ) → Nat →
    Except Nat (List (String × ℤ) × Nat)
  | [], m, t => .ok (m, t)
  | (cid, r) :: rest, m, t =>
    if T ≤ t then .error t
    else specRunItems T rest (valueMergeOne m cid r.score) (t + 1)

/-- Modelled from the spec: whole-job evaluation with per-category-step
deadline checks, as section 4.4 of the spec describes the orchestrator. -/
def spec_perform_multi_method_evaluation (ms : List MethodRun) (T : Nat) :
    Except Nat (List (String × ℤ) × Nat) :=
  match specRunItems T (flatItems ms) [] 0 with
  | .error n => .error n
  | .ok (m, t) => if T ≤ t then .error t else .ok (m, t)

-- sanity probes for the orchestrator embedding
example :
    (perform_multi_method_evaluation
      [.basic (some [("plot", default)])] 10).isOk = true := by decide
example :
    perform_multi_method_evaluation [.basic (some [("plot", default)])] 0 =
      .error 0 := by decide

/-! ## Helper lemmas -/

/-- The heuristic score of the text fallback is nonnegative. -/
lemma extract_evaluation_score_nonneg (text : PyStr) (cid : String) :
    0 ≤ (extract_evaluation_from_text text cid).score := by
  unfold extract_evaluation_from_text
  cases h : (pySplit "\n".data text).find? scoreLineCond with
  | none => simp [h]
  | some line =>
    simp only [h]
    by_cases h100 : 100 < digitsVal line
    · simp only [h100, if_true]
      exact Int.emod_nonneg _ (by norm_num)
    · simp only [h100, if_false]
      exact Int.ofNat_nonneg _

/-- The heuristic score of the text fallback is at most 100. -/
lemma extract_evaluation_score_le (text : PyStr) (cid : String) :
    (extract_evaluation_from_text text cid).score ≤ 100 := by
  unfold extract_evaluation_from_text
  cases h : (pySplit "\n".data text).find? scoreLineCond with
  | none => simp [h]
  | some line =>
    simp only [h]
    by_cases h100 : 100 < digitsVal line
    · simp only [h100, if_true]
      exact le_of_lt (Int.emod_lt_of_pos _ (by norm_num))
    · simp only [h100, if_false]
      exact_mod_cast Nat.not_lt.mp h100

/-! ## Claim C10 -/

/-- Claim C10: the text-fallback score extractor is total and bounded. For
every input text and category id, extract_evaluation_from_text returns a
result whose score is the first score-and-digit line value (digits
concatenated, reduced mod 100 when above 100) and lies in [0, 100],
defaulting to 0 when no line contains both the word score and a digit;
the summary is the first 500 characters of the text; strengths and
areas_for_improvement are empty lists. -/
theorem claim_C10 :
    ∀ (text : PyStr) (cid : String),
      ((extract_evaluation_from_text text cid).score =
        match (pySplit "\n".data text).find? scoreLineCond with
        | none => 0
        | some line =>
          if 100 < digitsVal line then ((digitsVal line : ℤ) % 100)
          else (digitsVal line : ℤ))
      ∧ 0 ≤ (extract_evaluation_from_text text cid).score
      ∧ (extract_evaluation_from_text text cid).score ≤ 100
      ∧ (extract_evaluation_from_text text cid).summary = text.take 500
      ∧ (extract_evaluation_from_text text cid).strengths = some []
      ∧ (extract_evaluation_from_text text cid).areas_for_improvement = some []
      ∧ ((∀ l ∈ pySplit "\n".data text, scoreLineCond l = false) →
          (extract_evaluation_from_text text cid).score = 0) := by
  intro text cid
  refine ⟨rfl, extract_evaluation_score_nonneg text cid,
    extract_evaluation_score_le text cid, rfl, rfl, rfl, fun hnone => ?_⟩
  unfold extract_evaluation_from_text
  have : (pySplit "\n".data text).find? scoreLineCond = none := by
    apply List.find?_eq_none.mpr
    intro l hl
    simp [hnone l hl]
  simp [this]

/-- Witness for C10: concrete instantiation on a text with no score line. -/
theorem claim_C10_witness :
    (extract_evaluation_from_text ("just words, no numerals").data "plot").score
      = 0 :=
  (claim_C10 ("just words, no numerals").data "plot").2.2.2.2.2.2 (by decide)

/-! ## Claim C5 (corrected) -/

/-- Counterexample to C5 as stated: for the GPT evaluator category path, a
model response that is not parseable as JSON and contains no numeric
token near the word score yields score 75 (the fixed fallback), not the
heuristic default 0 the claim asserts. -/
theorem claim_C5_counterexample :
    (processGptResponse (.text ("The manuscript is decent.").data)).score = 75
    ∧ (pySplit "\n".data ("The manuscript is decent.").data).find? scoreLineCond
        = none
    ∧ (75 : ℤ) ≠ 0 := by
  decide

/-- Claim C5 as amended: on a non-JSON model response neither evaluator
raises. The GPT evaluator category path returns the raw text as summary
with fixed score 75 and status completed; only the template evaluator
custom-prompt path applies the heuristic score scan (defaulting to 0 when
no score-and-digit line exists), with the summary truncated to the first
500 characters of the raw text. -/
theorem claim_C5_amended :
    ∀ (raw : PyStr) (cid : String),
      processGptResponse (.text raw) = gptFallbackResult raw
      ∧ (gptFallbackResult raw).score = 75
      ∧ (gptFallbackResult raw).summary = raw
      ∧ (gptFallbackResult raw).status = some "completed"
      ∧ templateProcessResponse (.text raw) cid
          = extract_evaluation_from_text raw cid
      ∧ (extract_evaluation_from_text raw cid).summary = raw.take 500
      ∧ ((∀ l ∈ pySplit "\n".data raw, scoreLineCond l = false) →
          (extract_evaluation_from_text raw cid).score = 0) := by
  intro raw cid
  refine ⟨rfl, rfl, rfl, rfl, rfl, rfl, fun hnone => ?_⟩
  unfold extract_evaluation_from_text
  have : (pySplit "\n".data raw).find? scoreLineCond = none := by
    apply List.find?_eq_none.mpr
    intro l hl
    simp [hnone l hl]
  simp [this]

/-- Witness for the amended C5 at a concrete raw response. -/
theorem claim_C5_amended_witness :
    (extract_evaluation_from_text ("not json at all").data "plot").score = 0 :=
  (claim_C5_amended ("not json at all").data "plot").2.2.2.2.2.2 (by decide)

/-! ## Claim C8 (corrected) -/

/-- Counterexample to C8 as stated: the JSON-parsed path stores the model
score unclamped, so a parsed response with score 150 produces a
CategoryResult whose score violates the claimed 0..100 bound. -/
theorem claim_C8_counterexample :
    (gptJsonResult ⟨some 150, none, none, none⟩).score = 150
    ∧ ¬((gptJsonResult ⟨some 150, none, none, none⟩).score ≤ 100)
    ∧ (templateJsonResult ⟨some (-5), none, none, none⟩).score = -5
    ∧ ¬(0 ≤ (templateJsonResult ⟨some (-5), none, none, none⟩).score) := by
  decide

/-- Claim C8 as amended: the CategoryResults of the JSON-fallback path
(fixed 75), the heuristic text-fallback path, the retry-exhausted failure
path (0) and the fixed mock path all have scores in [0, 100]; the
JSON-parsed paths of both evaluators pass the model-supplied score
through unclamped. -/
theorem claim_C8_amended :
    ∀ (o : JsonEval) (raw text msg : PyStr) (cid : String),
      (gptJsonResult o).score = o.score.getD 0
      ∧ (templateJsonResult o).score = o.score.getD 0
      ∧ (0 ≤ (gptFallbackResult raw).score ∧ (gptFallbackResult raw).score ≤ 100)
      ∧ (0 ≤ (extract_evaluation_from_text text cid).score
          ∧ (extract_evaluation_from_text text cid).score ≤ 100)
      ∧ (gptFailedResult msg).score = 0
      ∧ (∀ p ∈ generate_mock_evaluation, 0 ≤ p.2.score ∧ p.2.score ≤ 100) := by
  intro o raw text msg cid
  exact ⟨rfl, rfl, ⟨by norm_num [gptFallbackResult], by norm_num [gptFallbackResult]⟩,
    ⟨extract_evaluation_score_nonneg text cid,
     extract_evaluation_score_le text cid⟩,
    rfl, by decide⟩

/-- Witness for the amended C8 at concrete inputs. -/
theorem claim_C8_amended_witness :
    0 ≤ (extract_evaluation_from_text ("score: 40").data "plot").score ∧
    (extract_evaluation_from_text ("score: 40").data "plot").score ≤ 100 :=
  (claim_C8_amended ⟨none, none, none, none⟩ [] ("score: 40").data [] "plot").2.2.2.1

/-! ## Claim C4 -/

/-- Claim C4: when every attempt of the model call raises, the category
evaluator makes exactly 3 attempts with sleeps of 2 then 4 seconds, and
returns (does not raise) a CategoryResult with score 0 and status failed;
when an attempt succeeds before the third failure, the result has status
completed; and the comprehensive evaluation always evaluates all six
categories regardless of the per-category outcomes, so no category
failure aborts the job. -/
theorem claim_C4 :
    (∀ (outcomes : Nat → AttemptOutcome) (m0 m1 m2 : PyStr),
      outcomes 0 = .raises m0 → outcomes 1 = .raises m1 →
      outcomes 2 = .raises m2 →
      evaluate_category outcomes = (gptFailedResult m2, [2, 4], 3)
      ∧ (gptFailedResult m2).score = 0
      ∧ (gptFailedResult m2).status = some "failed")
    ∧ (∀ (outcomes : Nat → AttemptOutcome) (r : ModelResponse) (k : Nat),
      k < 3 → outcomes k = .responds r →
      (∀ i, i < k → ∃ m, outcomes i = .raises m) →
      (evaluate_category outcomes).1.status = some "completed"
      ∧ (evaluate_category outcomes).2.2 = k + 1)
    ∧ (∀ schedule : String → Nat → AttemptOutcome,
      (perform_comprehensive_evaluation schedule).1.map Prod.fst
        = evaluationCategoryIds) := by
  refine ⟨?_, ?_, ?_⟩
  · intro outcomes m0 m1 m2 h0 h1 h2
    refine ⟨?_, rfl, rfl⟩
    simp [evaluate_category, evalCategoryGo, h0, h1, h2]
  · intro outcomes r k hk hr hprev
    have hstat : ∀ resp : ModelResponse,
        (processGptResponse resp).status = some "completed" := by
      intro resp
      cases resp <;> rfl
    interval_cases k
    · constructor
      · simp [evaluate_category, evalCategoryGo, hr, hstat]
      · simp [evaluate_category, evalCategoryGo, hr]
    · obtain ⟨a0, h0⟩ := hprev 0 (by omega)
      constructor
      · simp [evaluate_category, evalCategoryGo, h0, hr, hstat]
      · simp [evaluate_category, evalCategoryGo, h0, hr]
    · obtain ⟨a0, h0⟩ := hprev 0 (by omega)
      obtain ⟨a1, h1⟩ := hprev 1 (by omega)
      constructor
      · simp [evaluate_category, evalCategoryGo, h0, h1, hr, hstat]
      · simp [evaluate_category, evalCategoryGo, h0, h1, hr]
  · intro schedule
    rfl

/-- Witness for C4: the all-fail schedule at a concrete message. -/
theorem claim_C4_witness :
    evaluate_category (fun _ => .raises ("boom").data)
      = (gptFailedResult ("boom").data, [2, 4], 3) :=
  (claim_C4.1 (fun _ => .raises ("boom").data)
    ("boom").data ("boom").data ("boom").data rfl rfl rfl).1

/-! ## Claim C9 (corrected) -/

/-- A 60-character text for the C9 counterexample. -/
def sixtyCharText : PyStr := List.replicate 60 'a'

/-- A trivial outcome schedule. -/
def okSchedule : String → Nat → AttemptOutcome :=
  fun _ _ => .responds (.text ("fine").data)

/-- Counterexample to C9 as stated: a text of 60 trimmed characters passes
the 50-character extraction gate, yet no per-category evaluation happens:
the basic evaluator itself rejects texts below 100 trimmed characters,
the orchestrator catches that exception, and the job completes with zero
categories. -/
theorem claim_C9_counterexample :
    (pyStrip sixtyCharText).length = 60
    ∧ extractionGatePasses sixtyCharText = true
    ∧ routeBasicEvaluation sixtyCharText okSchedule = .completed [] 0 := by
  decide

/-- Claim C9 as amended: a text below 50 trimmed characters is rejected by
the extraction gate before any evaluation; from 50 trimmed characters the
gate passes; but per-category evaluation is only reached from 100 trimmed
characters (the evaluator re-checks at 100 and its too-short exception is
caught, leaving a completed job with zero categories for lengths in
[50, 100)). -/
theorem claim_C9_amended :
    ∀ (text : PyStr) (outcomes : String → Nat → AttemptOutcome),
      ((pyStrip text).length < 50 →
        routeBasicEvaluation text outcomes = .rejectedExtraction)
      ∧ (50 ≤ (pyStrip text).length →
        routeBasicEvaluation text outcomes ≠ .rejectedExtraction)
      ∧ (100 ≤ (pyStrip text).length →
        routeBasicEvaluation text outcomes =
          .completed (perform_comprehensive_evaluation outcomes).1
            (perform_comprehensive_evaluation outcomes).2
        ∧ (perform_comprehensive_evaluation outcomes).1.map Prod.fst
            = evaluationCategoryIds)
      ∧ (50 ≤ (pyStrip text).length → (pyStrip text).length < 100 →
        routeBasicEvaluation text outcomes = .completed [] 0) := by
  intro text outcomes
  have hne : ∀ h50 : 50 ≤ (pyStrip text).length, text.isEmpty = false := by
    intro h50
    cases text with
    | nil => simp [pyStrip] at h50
    | cons c t => rfl
  refine ⟨?_, ?_, ?_, ?_⟩
  · intro h50
    have : extractionGatePasses text = false := by
      simp [extractionGatePasses, h50]
    simp [routeBasicEvaluation, this]
  · intro h50
    have hgate : extractionGatePasses text = true := by
      simp [extractionGatePasses, hne h50]
      omega
    simp only [routeBasicEvaluation, hgate, if_true]
    cases evaluate_manuscript text outcomes <;> simp
  · intro h100
    have h50 : 50 ≤ (pyStrip text).length := by omega
    have hgate : extractionGatePasses text = true := by
      simp [extractionGatePasses, hne h50]
      omega
    have hman : evaluate_manuscript text outcomes
        = .ok (perform_comprehensive_evaluation outcomes) := by
      simp [evaluate_manuscript, hne h50]
      omega
    refine ⟨?_, rfl⟩
    simp [routeBasicEvaluation, hgate, hman]
  · intro h50 h100
    have hgate : extractionGatePasses text = true := by
      simp [extractionGatePasses, hne h50]
      omega
    have hman : evaluate_manuscript text outcomes
        = .error ("Manuscript text is too short for meaningful evaluation").data := by
      simp [evaluate_manuscript, h100]
    simp [routeBasicEvaluation, hgate, hman, overallScoreOf]

/-- Witness for the amended C9: a short text is rejected by the gate, and a
long text reaches all six categories. -/
theorem claim_C9_amended_witness :
    routeBasicEvaluation ("hi").data okSchedule = .rejectedExtraction :=
  (claim_C9_amended ("hi").data okSchedule).1 (by decide)

/-! ## Claim C6 -/

/-- Lookup after a dict write succeeds exactly for the written key or keys
already present. -/
lemma dictInsert_lookup_isSome {α : Type} (m : List (String × α))
    (k k' : String) (v : α) :
    ((dictInsert m k v).lookup k').isSome
      ↔ k' = k ∨ (m.lookup k').isSome := by
  induction m with
  | nil =>
    by_cases h : k' = k
    · simp [dictInsert, List.lookup, h]
    · have hb : (k' == k) = false := beq_eq_false_iff_ne.mpr h
      simp [dictInsert, List.lookup, hb, h]
  | cons hd tl ih =>
    obtain ⟨k0, v0⟩ := hd
    by_cases h0 : k0 = k
    · subst h0
      by_cases h1 : k' = k0
      · simp [dictInsert, List.lookup, h1]
      · have hb : (k' == k0) = false := beq_eq_false_iff_ne.mpr h1
        simp [dictInsert, List.lookup, hb, h1]
    · by_cases h1 : k' = k0
      · subst h1
        simp [dictInsert, List.lookup, h0, Ne.symm h0]
      · have hb : (k' == k0) = false := beq_eq_false_iff_ne.mpr h1
        simp [dictInsert, List.lookup, h0, hb, h1, ih]

/-- A fold of resolver steps over pieces none of whose parsed sheets match
leaves the accumulator unchanged. -/
lemma foldl_resolve_no_match (pieces : List PyStr)
    (acc : List (String × PyStr))
    (h : ∀ p ∈ pieces, ∀ nb, parseSheetPiece p = some nb →
      firstMatchCategory nb.1 = none) :
    pieces.foldl resolveSheetStep acc = acc := by
  induction pieces generalizing acc with
  | nil => rfl
  | cons p rest ih =>
    have hrest : ∀ q ∈ rest, ∀ nb, parseSheetPiece q = some nb →
        firstMatchCategory nb.1 = none :=
      fun q hq => h q (List.mem_cons_of_mem p hq)
    rw [List.foldl_cons]
    cases hp : parseSheetPiece p with
    | none =>
      rw [show resolveSheetStep acc p = acc by simp [resolveSheetStep, hp]]
      exact ih acc hrest
    | some nb =>
      obtain ⟨name, body⟩ := nb
      have hm : firstMatchCategory name = none :=
        h p (List.mem_cons_self p rest) (name, body) hp
      rw [show resolveSheetStep acc p = acc by simp [resolveSheetStep, hp, hm]]
      exact ih acc hrest

/-- Membership in the folded prompt dict: a category key is present after
the fold exactly when it was already present or some piece parses to a
sheet whose name matches it. -/
lemma foldl_resolve_lookup_isSome (pieces : List PyStr)
    (acc : List (String × PyStr)) (cat : String) :
    ((pieces.foldl resolveSheetStep acc).lookup cat).isSome
      ↔ (acc.lookup cat).isSome
        ∨ ∃ p ∈ pieces, ∃ nb, parseSheetPiece p = some nb
            ∧ firstMatchCategory nb.1 = some cat := by
  induction pieces generalizing acc with
  | nil => simp
  | cons p rest ih
  =>
    rw [List.foldl_cons]
    cases hp : parseSheetPiece p with
    | none =>
      rw [show resolveSheetStep acc p = acc by simp [resolveSheetStep, hp]]
      rw [ih]
      constructor
      · rintro (ha | ⟨q, hq, nb, hnb, hcat⟩)
        · exact Or.inl ha
        · exact Or.inr ⟨q, List.mem_cons_of_mem p hq, nb, hnb, hcat⟩
      · rintro (ha | ⟨q, hq, nb, hnb, hcat⟩)
        · exact Or.inl ha
        · rcases List.mem_cons.mp hq with rfl | hq
          · rw [hp] at hnb; cases hnb
          · exact Or.inr ⟨q, hq, nb, hnb, hcat⟩
    | some nb0 =>
      obtain ⟨name, body⟩ := nb0
      cases hm : firstMatchCategory name with
      | none =>
        rw [show resolveSheetStep acc p = acc by
          simp [resolveSheetStep, hp, hm]]
        rw [ih]
        constructor
        · rintro (ha | ⟨q, hq, nb, hnb, hcat⟩)
          · exact Or.inl ha
          · exact Or.inr ⟨q, List.mem_cons_of_mem p hq, nb, hnb, hcat⟩
        · rintro (ha | ⟨q, hq, nb, hnb, hcat⟩)
          · exact Or.inl ha
          · rcases List.mem_cons.mp hq with rfl | hq
            · rw [hp] at hnb
              injection hnb with hnb
              rw [← hnb] at hcat
              rw [hm] at hcat
              cases hcat
            · exact Or.inr ⟨q, hq, nb, hnb, hcat⟩
      | some c =>
        rw [show resolveSheetStep acc p
          = dictInsert acc c (clean_prompt_content body) by
            simp [resolveSheetStep, hp, hm]]
        rw [ih]
        rw [dictInsert_lookup_isSome]
        constructor
        · rintro ((rfl | ha) | ⟨q, hq, nb, hnb, hcat⟩)
          · exact Or.inr ⟨p, List.mem_cons_self p rest, (name, body), hp, hm⟩
          · exact Or.inl ha
          · exact Or.inr ⟨q, List.mem_cons_of_mem p hq, nb, hnb, hcat⟩
        · rintro (ha | ⟨q, hq, nb, hnb, hcat⟩)
          · exact Or.inl (Or.inr ha)
          · rcases List.mem_cons.mp hq with rfl | hq
            · rw [hp] at hnb
              injection hnb with hnb
              rw [← hnb] at hcat
              rw [hm] at hcat
              injection hcat with hc
              exact Or.inl (Or.inl hc.symm)
            · exact Or.inr ⟨q, hq, nb, hnb, hcat⟩

/-- Claim C6: the template prompt resolver returns the full six-entry
default-prompt map when no parsed sheet name matches any keyword set;
otherwise the returned map holds exactly the categories matched by some
parsed sheet name (first matching category in table order winning, a
sheet contributing to at most one category), with unmatched categories
absent. -/
theorem claim_C6 :
    ∀ content : PyStr,
      ((∀ s ∈ parsedSheets content, firstMatchCategory s.1 = none) →
        extract_prompts_from_content content = default_prompts)
      ∧ ((∃ s ∈ parsedSheets content, (firstMatchCategory s.1).isSome) →
        ∀ cat : String,
          ((extract_prompts_from_content content).lookup cat).isSome
            ↔ ∃ s ∈ parsedSheets content,
                firstMatchCategory s.1 = some cat) := by
  intro content
  have hbridge : ∀ s, s ∈ parsedSheets content
      ↔ ∃ p ∈ pySplit ("=== SHEET:").data content,
          parseSheetPiece p = some s := by
    intro s
    simp [parsedSheets, List.mem_filterMap]
  constructor
  · intro hnone
    have h0 : (pySplit ("=== SHEET:").data content).foldl resolveSheetStep []
        = [] := by
      apply foldl_resolve_no_match
      intro p hp nb hnb
      exact hnone nb ((hbridge nb).mpr ⟨p, hp, hnb⟩)
    simp [extract_prompts_from_content, h0]
  · rintro ⟨s0, hs0, hsome0⟩ cat
    obtain ⟨c0, hc0⟩ := Option.isSome_iff_exists.mp hsome0
    obtain ⟨p0, hp0, hps0⟩ := (hbridge s0).mp hs0
    have hne : (((pySplit ("=== SHEET:").data content).foldl resolveSheetStep
        []).isEmpty) = false := by
      have hsome : (((pySplit ("=== SHEET:").data content).foldl
          resolveSheetStep []).lookup c0).isSome := by
        rw [foldl_resolve_lookup_isSome]
        exact Or.inr ⟨p0, hp0, s0, hps0, hc0⟩
      rcases hcase : (pySplit ("=== SHEET:").data content).foldl
          resolveSheetStep [] with _ | _
      · rw [hcase] at hsome; simp [List.lookup] at hsome
      · rfl
    rw [show extract_prompts_from_content content
      = (pySplit ("=== SHEET:").data content).foldl resolveSheetStep [] by
        simp [extract_prompts_from_content, hne]]
    rw [foldl_resolve_lookup_isSome]
    constructor
    · rintro (ha | ⟨q, hq, nb, hnb, hcat⟩)
      · simp [List.lookup] at ha
      · exact ⟨nb, (hbridge nb).mpr ⟨q, hq, hnb⟩, hcat⟩
    · rintro ⟨s, hs, hcat⟩
      obtain ⟨q, hq, hqs⟩ := (hbridge s).mp hs
      exact Or.inr ⟨q, hq, s, hqs, hcat⟩

/-- Spreadsheet text of the spec example: sheets Line Editing Notes, PLOT
and Misc. -/
def templateExampleContent : PyStr :=
  ("=== SHEET: Line Editing Notes ===\nFix commas and dangling modifiers.\n\n=== SHEET: PLOT ===\nTighten pacing in act two.\n\n=== SHEET: Misc ===\nAssorted notes.").data

set_option maxRecDepth 40000 in
/-- Witness for C6 on the spec example: the resolved map has exactly the
keys line-editing and plot, in that order. -/
theorem claim_C6_witness :
    ((extract_prompts_from_content templateExampleContent).lookup
      "plot").isSome = true
    ∧ (extract_prompts_from_content templateExampleContent).map Prod.fst
        = ["line-editing", "plot"] :=
  ⟨((claim_C6 templateExampleContent).2 (by decide) "plot").mpr (by decide),
   by decide⟩

/-! ## Claim C2 (code bug: merge mutates all_results through aliasing) -/

/-- Construction of a completed category dict with a given score. -/
def mkCat (n : ℤ) : CategoryResult :=
  { score := n
    summary := ("ok").data
    strengths := some []
    areas_for_improvement := some []
    status := some "completed" }

/-- Six basic-method category results with plot scored 70. -/
def c2BasicResults : List (String × CategoryResult) :=
  [("line-editing", mkCat 85), ("plot", mkCat 70), ("character", mkCat 92),
   ("flow", mkCat 80), ("worldbuilding", mkCat 88), ("readiness", mkCat 84)]

/-- Failing job for C2: basic scores plot 70, then template 7 scores
plot 90. -/
def c2Job : List MethodRun :=
  [.basic (some c2BasicResults),
   .template [⟨"7", some [("plot", mkCat 90)]⟩]]

/-- Score recorded in all_results for a method and category in the result
of a run. -/
def allResultsScore (r : Except Nat (EvaluationOutput × Nat))
    (methodKey cid : String) : Option ℤ :=
  match r with
  | .error _ => none
  | .ok (out, _) =>
    ((out.all_results.lookup methodKey).bind fun cats =>
      cats.lookup cid).map (·.score)

/-- Combined score for a category in the result of a run. -/
def combinedScore (r : Except Nat (EvaluationOutput × Nat)) (cid : String) :
    Option ℤ :=
  match r with
  | .error _ => none
  | .ok (out, _) => ((out.categories.lookup cid).map (·.score))

/-- Claim C2 evaluated at the failing input: after merging the template
contribution of 90 into the basic contribution of 70 for plot, the basic
entry of all_results reports the MERGED score 80, not its original 70:
the merge wrote through the dict reference shared between
combined_categories and all_results, so the per-method entries do not
keep their unmerged values and the stored CategoryResult is mutated after
creation. -/
theorem claim_C2_code_bug :
    allResultsScore (perform_multi_method_evaluation c2Job 1000)
      "basic" "plot" = some 80
    ∧ combinedScore (perform_multi_method_evaluation c2Job 1000) "plot"
        = some 80
    ∧ allResultsScore (perform_multi_method_evaluation c2Job 1000)
        "template_7" "plot" = some 90
    ∧ (80 : ℤ) ≠ 70 := by
  decide

/-! ## Claim C3 (corrected): deadline check granularity -/

/-- Job for the C3 counterexample: one basic method evaluating six
categories. -/
def c3Job : List MethodRun := [.basic (some c2BasicResults)]

/-- Counterexample to C3 as stated: with the deadline elapsing after 2 of
6 category evaluations, the code still performs all 6 evaluations of the
basic method (the error carries elapsed time 6) because it checks the
flag only per method, per template and before returning; the
per-category-check behavior stated by the spec would abort at the start
of the third evaluation (elapsed time 2). -/
theorem claim_C3_counterexample :
    perform_multi_method_evaluation c3Job 2 = .error 6
    ∧ spec_perform_multi_method_evaluation c3Job 2 = .error 2
    ∧ (6 : Nat) ≠ 2 := by
  decide

/-! ## Run lemmas for the orchestrator -/

/-- Pure per-template loop without deadline checks. -/
def runTemplatesAll : List TemplateRun → OrchState → OrchState
  | [], s => s
  | t :: rest, s =>
    match t.result with
    | none => runTemplatesAll rest s
    | some res =>
      runTemplatesAll rest (processMethodResult ("template_" ++ t.id) res s)

/-- Pure method loop without deadline checks. -/
def runMethodsAll : List MethodRun → OrchState → OrchState
  | [], s => s
  | m :: rest, s =>
    match m with
    | .basic none => runMethodsAll rest s
    | .basic (some res) => runMethodsAll rest (processMethodResult "basic" res s)
    | .template ts => runMethodsAll rest (runTemplatesAll ts s)

/-- Merging one reference never changes the elapsed time. -/
lemma mergeRef_elapsed (s : OrchState) (cid : String) (idx : Nat) :
    (mergeRef s cid idx).elapsed = s.elapsed := by
  unfold mergeRef
  cases s.combined.lookup cid <;> rfl

/-- Folding merges never changes the elapsed time. -/
lemma mergeRefs_elapsed (refs : List (String × Nat)) (s : OrchState) :
    (refs.foldl (fun st p => mergeRef st p.1 p.2) s).elapsed = s.elapsed := by
  induction refs generalizing s with
  | nil => rfl
  | cons r rest ih => rw [List.foldl_cons, ih, mergeRef_elapsed]

/-- A processed method advances the elapsed time by its category count. -/
lemma processMethodResult_elapsed (key : String)
    (res : List (String × CategoryResult)) (s : OrchState) :
    (processMethodResult key res s).elapsed = s.elapsed + res.length := by
  unfold processMethodResult
  rw [mergeRefs_elapsed]

/-- The pure template loop advances elapsed time by its item count. -/
lemma runTemplatesAll_elapsed (ts : List TemplateRun) (s : OrchState) :
    (runTemplatesAll ts s).elapsed = s.elapsed + (templateItems ts).length := by
  induction ts generalizing s with
  | nil => rfl
  | cons t rest ih =>
    cases ht : t.result with
    | none =>
      simp [runTemplatesAll, ht, templateItems, ih]
    | some res =>
      simp only [runTemplatesAll, ht, ih, processMethodResult_elapsed]
      simp [templateItems, ht]
      omega

/-- The pure method loop advances elapsed time by the total job cost. -/
lemma runMethodsAll_elapsed (ms : List MethodRun) (s : OrchState) :
    (runMethodsAll ms s).elapsed = s.elapsed + totalCost ms := by
  induction ms generalizing s with
  | nil => simp [runMethodsAll, totalCost, flatItems]
  | cons m rest ih =>
    have hflat : totalCost (m :: rest) = (methodItems m).length + totalCost rest := by
      simp [totalCost, flatItems]
    cases m with
    | basic ores =>
      cases ores with
      | none =>
        simp only [runMethodsAll, ih, hflat]
        simp [methodItems]
      | some res =>
        simp only [runMethodsAll, ih, processMethodResult_elapsed, hflat]
        simp [methodItems]
        omega
    | template ts =>
      simp only [runMethodsAll, ih, runTemplatesAll_elapsed, hflat]
      simp [methodItems]
      omega

/-- When the deadline is beyond the whole remaining work, the checked
template loop equals the pure one. -/
lemma runTemplates_ok_of_lt (T : Nat) (ts : List TemplateRun) (s : OrchState)
    (h : s.elapsed + (templateItems ts).length < T) :
    runTemplates T ts s = .ok (runTemplatesAll ts s) := by
  induction ts generalizing s with
  | nil => rfl
  | cons t rest ih =>
    have hlt : ¬ T ≤ s.elapsed := by omega
    cases ht : t.result with
    | none =>
      have hrest : s.elapsed + (templateItems rest).length < T := by
        have : (templateItems (t :: rest)).length = (templateItems rest).length := by
          simp [templateItems, ht]
        omega
      simp [runTemplates, runTemplatesAll, hlt, ht, ih _ hrest]
    | some res =>
      have hlen : (templateItems (t :: rest)).length
          = res.length + (templateItems rest).length := by
        simp [templateItems, ht]
      have hrest : (processMethodResult ("template_" ++ t.id) res s).elapsed
          + (templateItems rest).length < T := by
        rw [processMethodResult_elapsed]; omega
      simp [runTemplates, runTemplatesAll, hlt, ht, ih _ hrest]

/-- When the deadline is beyond the whole remaining work, the checked
method loop equals the pure one. -/
lemma runMethods_ok_of_lt (T : Nat) (ms : List MethodRun) (s : OrchState)
    (h : s.elapsed + totalCost ms < T) :
    runMethods T ms s = .ok (runMethodsAll ms s) := by
  induction ms generalizing s with
  | nil => rfl
  | cons m rest ih =>
    have hlt : ¬ T ≤ s.elapsed := by
      have := Nat.le_add_right s.elapsed (totalCost (m :: rest))
      omega
    have hflat : totalCost (m :: rest)
        = (methodItems m).length + totalCost rest := by
      simp [totalCost, flatItems]
    cases m with
    | basic ores =>
      cases ores with
      | none =>
        have hrest : s.elapsed + totalCost rest < T := by
          simp [methodItems] at hflat; omega
        simp [runMethods, runMethodsAll, hlt, ih _ hrest]
      | some res =>
        have hrest : (processMethodResult "basic" res s).elapsed
            + totalCost rest < T := by
          rw [processMethodResult_elapsed]
          simp [methodItems] at hflat
          omega
        simp [runMethods, runMethodsAll, hlt, ih _ hrest]
    | template ts =>
      have hts : s.elapsed + (templateItems ts).length < T := by
        simp [methodItems] at hflat
        omega
      have hrest : (runTemplatesAll ts s).elapsed + totalCost rest < T := by
        rw [runTemplatesAll_elapsed]
        simp [methodItems] at hflat
        omega
      simp [runMethods, runMethodsAll, hlt, runTemplates_ok_of_lt T ts s hts,
        ih _ hrest]

/-- A successful checked template loop computes the pure run. -/
lemma runTemplates_ok_eq (T : Nat) (ts : List TemplateRun) (s s2 : OrchState)
    (h : runTemplates T ts s = .ok s2) : s2 = runTemplatesAll ts s := by
  induction ts generalizing s with
  | nil =>
    simp [runTemplates] at h
    simp [runTemplatesAll, h]
  | cons t rest ih =>
    by_cases hlt : T ≤ s.elapsed
    · simp [runTemplates, hlt] at h
    · cases ht : t.result with
      | none =>
        simp [runTemplates, hlt, ht] at h
        simpa [runTemplatesAll, ht] using ih _ h
      | some res =>
        simp [runTemplates, hlt, ht] at h
        simpa [runTemplatesAll, ht] using ih _ h

/-- A successful checked method loop computes the pure run. -/
lemma runMethods_ok_eq (T : Nat) (ms : List MethodRun) (s s2 : OrchState)
    (h : runMethods T ms s = .ok s2) : s2 = runMethodsAll ms s := by
  induction ms generalizing s with
  | nil =>
    simp [runMethods] at h
    simp [runMethodsAll, h]
  | cons m rest ih =>
    by_cases hlt : T ≤ s.elapsed
    · simp [runMethods, hlt] at h
    · cases m with
      | basic ores =>
        cases ores with
        | none =>
          simp [runMethods, hlt] at h
          simpa [runMethodsAll] using ih _ h
        | some res =>
          simp [runMethods, hlt] at h
          simpa [runMethodsAll] using ih _ h
      | template ts =>
        rcases hts : runTemplates T ts s with n | s3
        · simp [runMethods, hlt, hts] at h
        · simp [runMethods, hlt, hts] at h
          have := runTemplates_ok_eq T ts s s3 hts
          subst this
          simpa [runMethodsAll] using ih _ h

/-- Claim C3 as amended: the orchestrator checks the deadline at the start
of every METHOD, before every template, and once before returning — not
at every category-evaluation step — and whenever the deadline has passed
at one of those check points it aborts the whole job with a timeout error
carrying no partial result. Consequently the job raises the timeout
exactly when the deadline does not exceed the total work of the job, and
a returned result is always the result of the complete job, never a
partial one. -/
theorem claim_C3_amended :
    ∀ (ms : List MethodRun) (T : Nat),
      ((perform_multi_method_evaluation ms T).isOk = false ↔ T ≤ totalCost ms)
      ∧ (∀ out n, perform_multi_method_evaluation ms T = .ok (out, n) →
          n = totalCost ms ∧ out = finishJob (runMethodsAll ms initState)) := by
  intro ms T
  constructor
  · constructor
    · intro herr
      by_contra hnle
      have hlt : totalCost ms < T := by omega
      have h0 : (initState).elapsed + totalCost ms < T := by
        simp only [initState]
        omega
      have hok := runMethods_ok_of_lt T ms initState h0
      have helapsed : (runMethodsAll ms initState).elapsed = totalCost ms := by
        rw [runMethodsAll_elapsed]
        simp [initState]
      have : perform_multi_method_evaluation ms T
          = .ok (finishJob (runMethodsAll ms initState),
            (runMethodsAll ms initState).elapsed) := by
        unfold perform_multi_method_evaluation
        rw [hok]
        have : ¬ T ≤ (runMethodsAll ms initState).elapsed := by
          rw [helapsed]; omega
        simp [this]
      rw [this] at herr
      simp [Except.isOk, Except.toBool] at herr
    · intro hle
      rcases hrun : runMethods T ms initState with n | s
      · unfold perform_multi_method_evaluation
        rw [hrun]
        rfl
      · have hs := runMethods_ok_eq T ms initState s hrun
        have helapsed : s.elapsed = totalCost ms := by
          rw [hs, runMethodsAll_elapsed]
          simp [initState]
        unfold perform_multi_method_evaluation
        rw [hrun]
        have : T ≤ s.elapsed := by rw [helapsed]; exact hle
        simp [this, Except.isOk, Except.toBool]
  · intro out n hok
    unfold perform_multi_method_evaluation at hok
    rcases hrun : runMethods T ms initState with k | s
    · rw [hrun] at hok; cases hok
    · rw [hrun] at hok
      by_cases hT : T ≤ s.elapsed
      · simp [hT] at hok
      · simp [hT] at hok
        have hs := runMethods_ok_eq T ms initState s hrun
        have helapsed : s.elapsed = totalCost ms := by
          rw [hs, runMethodsAll_elapsed]
          simp [initState]
        exact ⟨by rw [← hok.2, helapsed], by rw [← hok.1, hs]⟩

/-- Witness for the amended C3: a job of six category evaluations against
a deadline of 2 units raises the timeout. -/
theorem claim_C3_amended_witness :
    (perform_multi_method_evaluation c3Job 2).isOk = false :=
  (claim_C3_amended c3Job 2).1.mpr (by decide)

/-! ## Value-model lemmas for the merge fold -/

/-- Lookup through a map that keeps keys and transforms values. -/
lemma lookup_map_snd {β γ : Type} (l : List (String × β)) (h : β → γ)
    (k : String) :
    (l.map fun p => (p.1, h p.2)).lookup k = (l.lookup k).map h := by
  induction l with
  | nil => rfl
  | cons hd tl ih =>
    obtain ⟨k0, v0⟩ := hd
    by_cases hk : k = k0
    · simp [List.lookup, hk]
    · have hb : (k == k0) = false := beq_eq_false_iff_ne.mpr hk
      simp [List.lookup, hb, ih]

/-- A looked-up value belongs to the mapped seconds. -/
lemma lookup_mem_snd {β : Type} (l : List (String × β)) (k : String) (v : β)
    (h : l.lookup k = some v) : v ∈ l.map Prod.snd := by
  induction l with
  | nil => cases h
  | cons hd tl ih =>
    obtain ⟨k0, v0⟩ := hd
    by_cases hk : k = k0
    · simp [List.lookup, hk] at h
      simp [h]
    · have hb : (k == k0) = false := beq_eq_false_iff_ne.mpr hk
      simp [List.lookup, hb] at h
      simp [ih h]

/-- Merging a score for an absent key appends it. -/
lemma valueMergeOne_of_lookup_none (m : List (String × ℤ)) (k : String)
    (v : ℤ) (h : m.lookup k = none) :
    valueMergeOne m k v = m ++ [(k, v)] := by
  induction m with
  | nil => rfl
  | cons hd tl ih =>
    obtain ⟨k0, v0⟩ := hd
    by_cases hk : k = k0
    · simp [List.lookup, hk] at h
    · have hb : (k == k0) = false := beq_eq_false_iff_ne.mpr hk
      simp only [List.lookup, hb] at h
      simp [valueMergeOne, Ne.symm hk, ih h]

/-- Lookup of the merged key. -/
lemma valueMergeOne_lookup_eq (m : List (String × ℤ)) (k : String) (v : ℤ) :
    (valueMergeOne m k v).lookup k =
      some (match m.lookup k with
        | none => v
        | some e => mergeScore e v) := by
  induction m with
  | nil => simp [valueMergeOne, List.lookup]
  | cons hd tl ih =>
    obtain ⟨k0, v0⟩ := hd
    by_cases hk : k0 = k
    · subst hk
      simp [valueMergeOne, List.lookup]
    · have hb : (k == k0) = false := beq_eq_false_iff_ne.mpr (Ne.symm hk)
      simp [valueMergeOne, hk, List.lookup, hb, ih]

/-- Lookup of a different key is unchanged by a merge. -/
lemma valueMergeOne_lookup_ne (m : List (String × ℤ)) (k : String) (v : ℤ)
    (cid : String) (h : cid ≠ k) :
    (valueMergeOne m k v).lookup cid = m.lookup cid := by
  induction m with
  | nil =>
    have hb : (cid == k) = false := beq_eq_false_iff_ne.mpr h
    simp [valueMergeOne, List.lookup, hb]
  | cons hd tl ih =>
    obtain ⟨k0, v0⟩ := hd
    by_cases hk : k0 = k
    · subst hk
      have hb : (cid == k0) = false := beq_eq_false_iff_ne.mpr h
      simp [valueMergeOne, List.lookup, hb]
    · by_cases hc : cid = k0
      · subst hc
        simp [valueMergeOne, hk, List.lookup]
      · have hb : (cid == k0) = false := beq_eq_false_iff_ne.mpr hc
        simp [valueMergeOne, hk, List.lookup, hb, ih]

/-- Folding contributions through the value merge computes, per category,
the left fold of pairwise rounded means over exactly the contributions
for that category. -/
lemma valueMergeItems_lookup (items : List (String × CategoryResult)) :
    ∀ (m : List (String × ℤ)) (cid : String),
      ((items.foldl (fun m p => valueMergeOne m p.1 p.2.score) m).lookup cid)
        = mergeFoldFrom (m.lookup cid)
            (items.filterMap fun p =>
              if p.1 = cid then some p.2.score else none) := by
  induction items with
  | nil =>
    intro m cid
    rw [List.foldl_nil, List.filterMap_nil]
    cases List.lookup cid m <;> rfl
  | cons hd tl ih =>
    intro m cid
    obtain ⟨k, r⟩ := hd
    rw [List.foldl_cons]
    by_cases hk : k = cid
    · subst hk
      rw [ih]
      rw [valueMergeOne_lookup_eq]
      simp only [List.filterMap_cons, if_pos rfl]
      cases hm : m.lookup k with
      | none => simp [mergeFoldFrom]
      | some e => simp [mergeFoldFrom]
    · rw [ih]
      rw [valueMergeOne_lookup_ne m k r.score cid (Ne.symm hk)]
      simp [List.filterMap_cons, hk]

/-! ## Store-model abstraction: the heap of category dicts projects onto
the value-semantics merge -/

/-- Abstraction of the combined dict of a state: category id to the score
currently stored in its cell. -/
def absCombined (s : OrchState) : List (String × ℤ) :=
  s.combined.map fun p => (p.1, (s.store.getD p.2 default).score)

/-- Reading outside the written cell is unchanged. -/
lemma getD_set_ne (l : List CategoryResult) (j i : Nat)
    (cell d : CategoryResult) (h : i ≠ j) :
    (l.set j cell).getD i d = l.getD i d := by
  simp [List.getD_eq_getElem?_getD, List.getElem?_set, Ne.symm h]

/-- Reading the written cell yields the written value. -/
lemma getD_set_self (l : List CategoryResult) (j : Nat)
    (cell d : CategoryResult) (h : j < l.length) :
    (l.set j cell).getD j d = cell := by
  simp [List.getD_eq_getElem?_getD, List.getElem?_set, h]

/-- A cell write outside every referenced cell leaves the abstraction of a
reference list unchanged. -/
lemma map_abs_set_not_mem (combined : List (String × Nat))
    (store : List CategoryResult) (j : Nat) (cell : CategoryResult)
    (hj : j ∉ combined.map Prod.snd) :
    combined.map (fun p => (p.1, ((store.set j cell).getD p.2 default).score))
      = combined.map (fun p => (p.1, (store.getD p.2 default).score)) := by
  apply List.map_congr_left
  intro p hp
  have : p.2 ≠ j := by
    intro he
    exact hj (he ▸ List.mem_map_of_mem Prod.snd hp)
  rw [getD_set_ne _ _ _ _ _ this]

/-- Writing the merged score into the cell of the looked-up category
abstracts to the value-semantics merge of that category. -/
lemma map_abs_set_merge (combined : List (String × Nat))
    (store : List CategoryResult) (cid : String) (j : Nat) (n : ℤ)
    (hl : combined.lookup cid = some j)
    (hnd : (combined.map Prod.snd).Nodup)
    (hb : ∀ p ∈ combined, p.2 < store.length) :
    combined.map (fun p => (p.1,
        ((store.set j
          { store.getD j default with
            score := mergeScore (store.getD j default).score n }).getD
          p.2 default).score))
      = valueMergeOne
          (combined.map fun p => (p.1, (store.getD p.2 default).score))
          cid n := by
  induction combined with
  | nil => cases hl
  | cons hd tl ih =>
    obtain ⟨k, i⟩ := hd
    by_cases hk : cid = k
    · subst hk
      simp only [List.lookup, beq_self_eq_true] at hl
      injection hl with hl
      subst hl
      have hjlen : i < store.length := hb (cid, i) (List.mem_cons_self _ _)
      have hnotmem : i ∉ tl.map Prod.snd := by
        simp only [List.map_cons, List.nodup_cons] at hnd
        exact hnd.1
      simp only [List.map_cons, valueMergeOne, eq_self_iff_true, if_true]
      rw [List.cons_eq_cons]
      refine ⟨?_, ?_⟩
      · rw [getD_set_self _ _ _ _ hjlen]
      · exact map_abs_set_not_mem tl store i _ hnotmem
    · have hbq : (cid == k) = false := beq_eq_false_iff_ne.mpr hk
      simp only [List.lookup, hbq] at hl
      have hjmem : j ∈ tl.map Prod.snd := by
        have := lookup_mem_snd tl cid j hl
        exact this
      have hne : i ≠ j := by
        simp only [List.map_cons, List.nodup_cons] at hnd
        intro he
        exact hnd.1 (he ▸ hjmem)
      simp only [List.map_cons]
      rw [show valueMergeOne
          ((k, (store.getD i default).score) ::
            tl.map fun p => (p.1, (store.getD p.2 default).score)) cid n
        = (k, (store.getD i default).score) ::
            valueMergeOne (tl.map fun p => (p.1, (store.getD p.2 default).score))
              cid n by
          simp [valueMergeOne, Ne.symm hk]]
      rw [List.cons_eq_cons]
      refine ⟨?_, ?_⟩
      · rw [getD_set_ne _ _ _ _ _ hne]
      · exact ih hl (by
          simp only [List.map_cons, List.nodup_cons] at hnd
          exact hnd.2)
          (fun p hp => hb p (List.mem_cons_of_mem _ hp))

/-- Lookup in the abstraction resolves the cell of the looked-up index. -/
lemma absCombined_lookup (s : OrchState) (cid : String) :
    (absCombined s).lookup cid
      = (s.combined.lookup cid).map fun idx =>
          (s.store.getD idx default).score := by
  unfold absCombined
  induction s.combined with
  | nil => rfl
  | cons hd tl ih =>
    obtain ⟨k, i⟩ := hd
    by_cases hk : cid = k
    · simp [List.lookup, hk]
    · have hb : (cid == k) = false := beq_eq_false_iff_ne.mpr hk
      simp only [List.map_cons, List.lookup, hb]
      exact ih

/-- Folding merges of fresh references, as the orchestrator does for one
method, abstracts to the value-semantics merge of the referenced scores,
and preserves the store invariants. -/
lemma mergeRefs_abs (refs : List (String × Nat)) :
    ∀ s : OrchState,
      (∀ p ∈ s.combined, p.2 < s.store.length) →
      (s.combined.map Prod.snd).Nodup →
      (∀ q ∈ refs, q.2 < s.store.length) →
      (refs.map Prod.snd).Nodup →
      (∀ q ∈ refs, q.2 ∉ s.combined.map Prod.snd) →
      absCombined (refs.foldl (fun st p => mergeRef st p.1 p.2) s)
        = (refs.map fun q => (q.1, (s.store.getD q.2 default).score)).foldl
            (fun m p => valueMergeOne m p.1 p.2) (absCombined s)
      ∧ (∀ p ∈ (refs.foldl (fun st p => mergeRef st p.1 p.2) s).combined,
          p.2 < (refs.foldl (fun st p => mergeRef st p.1 p.2) s).store.length)
      ∧ ((refs.foldl (fun st p => mergeRef st p.1 p.2) s).combined.map
          Prod.snd).Nodup
      ∧ (refs.foldl (fun st p => mergeRef st p.1 p.2) s).store.length
          = s.store.length
      ∧ (refs.foldl (fun st p => mergeRef st p.1 p.2) s).all_results
          = s.all_results
      ∧ (refs.foldl (fun st p => mergeRef st p.1 p.2) s).elapsed
          = s.elapsed := by
  induction refs with
  | nil =>
    intro s hb hnd _ _ _
    exact ⟨rfl, hb, hnd, rfl, rfl, rfl⟩
  | cons q rest ih =>
    intro s hb hnd hrb hrnd hrfresh
    obtain ⟨cid, idx⟩ := q
    have hidxlen : idx < s.store.length :=
      hrb (cid, idx) (List.mem_cons_self _ _)
    have hidxfresh : idx ∉ s.combined.map Prod.snd :=
      hrfresh (cid, idx) (List.mem_cons_self _ _)
    have hrestne : ∀ r ∈ rest, r.2 ≠ idx := by
      intro r hr he
      simp only [List.map_cons, List.nodup_cons] at hrnd
      exact hrnd.1 (he ▸ List.mem_map_of_mem Prod.snd hr)
    have hrnd2 : (rest.map Prod.snd).Nodup := by
      simp only [List.map_cons, List.nodup_cons] at hrnd
      exact hrnd.2
    rw [List.foldl_cons, List.map_cons, List.foldl_cons]
    cases hl : s.combined.lookup cid with
    | none =>
      have hstep : mergeRef s cid idx
          = ⟨s.store, s.combined ++ [(cid, idx)], s.all_results, s.elapsed⟩ := by
        simp [mergeRef, hl]
      have hb2 : ∀ p ∈ s.combined ++ [(cid, idx)], p.2 < s.store.length := by
        intro p hp
        rcases List.mem_append.mp hp with hp | hp
        · exact hb p hp
        · rw [List.mem_singleton] at hp
          subst hp
          exact hidxlen
      have hnd2 : ((s.combined ++ [(cid, idx)]).map Prod.snd).Nodup := by
        rw [List.map_append, List.nodup_append]
        refine ⟨hnd, by simp, ?_⟩
        intro a ha hb1
        simp only [List.map_cons, List.map_nil, List.mem_singleton] at hb1
        subst hb1
        exact hidxfresh ha
      have hrb2 : ∀ r ∈ rest, r.2 < s.store.length :=
        fun r hr => hrb r (List.mem_cons_of_mem _ hr)
      have hfresh2 : ∀ r ∈ rest,
          r.2 ∉ (s.combined ++ [(cid, idx)]).map Prod.snd := by
        intro r hr hmem
        rw [List.map_append] at hmem
        rcases List.mem_append.mp hmem with hmem | hmem
        · exact hrfresh r (List.mem_cons_of_mem _ hr) hmem
        · simp only [List.map_cons, List.map_nil, List.mem_singleton] at hmem
          exact hrestne r hr hmem
      obtain ⟨ihabs, ihb, ihnd, ihlen, ihar, ihel⟩ :=
        ih ⟨s.store, s.combined ++ [(cid, idx)], s.all_results, s.elapsed⟩
          hb2 hnd2 hrb2 hrnd2 hfresh2
      have habs2 : absCombined
          (⟨s.store, s.combined ++ [(cid, idx)], s.all_results,
            s.elapsed⟩ : OrchState)
          = valueMergeOne (absCombined s) cid
              ((s.store.getD idx default).score) := by
        have hlabs : (absCombined s).lookup cid = none := by
          rw [absCombined_lookup, hl]
          rfl
        rw [valueMergeOne_of_lookup_none _ _ _ hlabs]
        unfold absCombined
        rw [List.map_append]
        rfl
      rw [hstep]
      exact ⟨by rw [ihabs, habs2], ihb, ihnd, ihlen, ihar, ihel⟩
    | some j =>
      have hjmem : j ∈ s.combined.map Prod.snd := lookup_mem_snd _ _ _ hl
      have hstep : mergeRef s cid idx
          = ⟨s.store.set j
              { s.store.getD j default with
                score := mergeScore (s.store.getD j default).score
                  ((s.store.getD idx default).score) },
             s.combined, s.all_results, s.elapsed⟩ := by
        simp [mergeRef, hl]
      have hlen2 : (s.store.set j
          { s.store.getD j default with
            score := mergeScore (s.store.getD j default).score
              ((s.store.getD idx default).score) }).length
          = s.store.length := by
        rw [List.length_set]
      have hb2 : ∀ p ∈ s.combined, p.2 < (s.store.set j
          { s.store.getD j default with
            score := mergeScore (s.store.getD j default).score
              ((s.store.getD idx default).score) }).length := by
        intro p hp
        rw [hlen2]
        exact hb p hp
      have hrb2 : ∀ r ∈ rest, r.2 < (s.store.set j
          { s.store.getD j default with
            score := mergeScore (s.store.getD j default).score
              ((s.store.getD idx default).score) }).length := by
        intro r hr
        rw [hlen2]
        exact hrb r (List.mem_cons_of_mem _ hr)
      have hfresh2 : ∀ r ∈ rest, r.2 ∉ s.combined.map Prod.snd :=
        fun r hr => hrfresh r (List.mem_cons_of_mem _ hr)
      obtain ⟨ihabs, ihb, ihnd, ihlen, ihar, ihel⟩ :=
        ih ⟨s.store.set j
            { s.store.getD j default with
              score := mergeScore (s.store.getD j default).score
                ((s.store.getD idx default).score) },
           s.combined, s.all_results, s.elapsed⟩
          hb2 hnd hrb2 hrnd2 hfresh2
      have habs2 : absCombined
          (⟨s.store.set j
              { s.store.getD j default with
                score := mergeScore (s.store.getD j default).score
                  ((s.store.getD idx default).score) },
             s.combined, s.all_results, s.elapsed⟩ : OrchState)
          = valueMergeOne (absCombined s) cid
              ((s.store.getD idx default).score) := by
        unfold absCombined
        exact map_abs_set_merge s.combined s.store cid j _ hl hnd hb
      have hvals2 : (rest.map fun q => (q.1,
          ((s.store.set j
              { s.store.getD j default with
                score := mergeScore (s.store.getD j default).score
                  ((s.store.getD idx default).score) }).getD q.2
            default).score))
          = rest.map fun q => (q.1, (s.store.getD q.2 default).score) := by
        apply List.map_congr_left
        intro r hr
        have hrj : r.2 ≠ j := by
          intro he
          exact hrfresh r (List.mem_cons_of_mem _ hr) (he ▸ hjmem)
        rw [getD_set_ne _ _ _ _ _ hrj]
      rw [hstep]
      refine ⟨?_, ihb, ihnd, by rw [ihlen, hlen2], ihar, ihel⟩
      rw [ihabs]
      rw [show absCombined
          (⟨s.store.set j
              { s.store.getD j default with
                score := mergeScore (s.store.getD j default).score
                  ((s.store.getD idx default).score) },
             s.combined, s.all_results, s.elapsed⟩ : OrchState)
          = valueMergeOne (absCombined s) cid
              ((s.store.getD idx default).score) from habs2]
      exact congrArg _ hvals2

/-- Unfolding of processMethodResult into its allocation state and merge
fold. -/
lemma processMethodResult_eq (key : String)
    (res : List (String × CategoryResult)) (s : OrchState) :
    processMethodResult key res s
      = (res.enum.map fun p => (p.2.1, s.store.length + p.1)).foldl
          (fun st p => mergeRef st p.1 p.2)
          ⟨s.store ++ res.map (·.2), s.combined,
           s.all_results ++
             [(key, res.enum.map fun p => (p.2.1, s.store.length + p.1))],
           s.elapsed + res.length⟩ := rfl

/-- Processing one method abstracts to the value-semantics merge of its
contributions and preserves the store invariants. -/
lemma processMethodResult_abs (key : String)
    (res : List (String × CategoryResult)) (s : OrchState)
    (hb : ∀ p ∈ s.combined, p.2 < s.store.length)
    (hnd : (s.combined.map Prod.snd).Nodup) :
    absCombined (processMethodResult key res s)
      = res.foldl (fun m p => valueMergeOne m p.1 p.2.score) (absCombined s)
    ∧ (∀ p ∈ (processMethodResult key res s).combined,
        p.2 < (processMethodResult key res s).store.length)
    ∧ ((processMethodResult key res s).combined.map Prod.snd).Nodup := by
  have henum : ∀ p ∈ res.enum, p.1 < res.length ∧ res[p.1]? = some p.2 := by
    intro p hp
    have h1 := List.mem_enum_iff_getElem?.mp hp
    refine ⟨?_, h1⟩
    by_contra hout
    rw [List.getElem?_eq_none (by omega)] at h1
    cases h1
  set base := s.store.length with hbase
  set refs : List (String × Nat) :=
    res.enum.map fun p => (p.2.1, base + p.1) with hrefs
  set s1 : OrchState :=
    ⟨s.store ++ res.map (·.2), s.combined,
     s.all_results ++ [(key, refs)], s.elapsed + res.length⟩ with hs1
  have hlen1 : s1.store.length = base + res.length := by
    simp [hs1]
  have habs1 : absCombined s1 = absCombined s := by
    unfold absCombined
    apply List.map_congr_left
    intro p hp
    have := hb p hp
    rw [show s1.store = s.store ++ res.map (·.2) from rfl]
    rw [List.getD_append _ _ _ _ this]
  have hb1 : ∀ p ∈ s1.combined, p.2 < s1.store.length := by
    intro p hp
    rw [hlen1]
    have := hb p hp
    omega
  have hrb : ∀ q ∈ refs, q.2 < s1.store.length := by
    intro q hq
    obtain ⟨p, hp, rfl⟩ := List.mem_map.mp hq
    rw [hlen1]
    have := (henum p hp).1
    omega
  have hrnd : (refs.map Prod.snd).Nodup := by
    rw [hrefs, List.map_map]
    have hcomp : ((Prod.snd ∘ fun p : Nat × (String × CategoryResult) =>
        (p.2.1, base + p.1)) = fun p => base + p.1) := rfl
    rw [hcomp]
    have : (res.enum.map fun p => base + p.1)
        = (List.range res.length).map (base + ·) := by
      rw [← List.enum_map_fst res, List.map_map]
      rfl
    rw [this]
    exact (List.nodup_range _).map fun a b h => by omega
  have hrfresh : ∀ q ∈ refs, q.2 ∉ s1.combined.map Prod.snd := by
    intro q hq hmem
    obtain ⟨p, hp, rfl⟩ := List.mem_map.mp hq
    obtain ⟨pc, hpc, he⟩ := List.mem_map.mp hmem
    have h1 : pc.2 < base := hb pc hpc
    omega
  have hvals : (refs.map fun q => (q.1, (s1.store.getD q.2 default).score))
      = res.map fun p => (p.1, p.2.score) := by
    rw [hrefs, List.map_map]
    have hpt : ∀ p ∈ res.enum,
        ((fun q : String × Nat => (q.1, (s1.store.getD q.2 default).score)) ∘
          fun p : Nat × (String × CategoryResult) => (p.2.1, base + p.1)) p
          = (fun p : Nat × (String × CategoryResult) =>
              (p.2.1, p.2.2.score)) p := by
      intro p hp
      obtain ⟨hlt, hget⟩ := henum p hp
      simp only [Function.comp]
      have hcell : s1.store.getD (base + p.1) default = p.2.2 := by
        rw [show s1.store = s.store ++ res.map (·.2) from rfl]
        rw [List.getD_append_right _ _ _ _ (by omega)]
        rw [show base + p.1 - s.store.length = p.1 by omega]
        rw [List.getD_eq_getElem?_getD, List.getElem?_map, hget]
        rfl
      rw [hcell]
    rw [List.map_congr_left hpt]
    have : res.enum.map (fun p : Nat × (String × CategoryResult) =>
        (p.2.1, p.2.2.score))
        = (res.enum.map Prod.snd).map fun a => (a.1, a.2.score) := by
      rw [List.map_map]
      rfl
    rw [this, List.enum_map_snd]
  obtain ⟨ihabs, ihb, ihnd, _, _, _⟩ :=
    mergeRefs_abs refs s1 hb1 hnd hrb hrnd hrfresh
  rw [processMethodResult_eq]
  refine ⟨?_, ihb, ihnd⟩
  rw [ihabs, hvals, habs1, List.foldl_map]

/-- The pure template loop abstracts to the value merge of its items. -/
lemma runTemplatesAll_abs (ts : List TemplateRun) :
    ∀ s : OrchState,
      (∀ p ∈ s.combined, p.2 < s.store.length) →
      (s.combined.map Prod.snd).Nodup →
      absCombined (runTemplatesAll ts s)
        = (templateItems ts).foldl
            (fun m p => valueMergeOne m p.1 p.2.score) (absCombined s)
      ∧ (∀ p ∈ (runTemplatesAll ts s).combined,
          p.2 < (runTemplatesAll ts s).store.length)
      ∧ ((runTemplatesAll ts s).combined.map Prod.snd).Nodup := by
  induction ts with
  | nil =>
    intro s hb hnd
    exact ⟨by simp [runTemplatesAll, templateItems], hb, hnd⟩
  | cons t rest ih =>
    intro s hb hnd
    cases ht : t.result with
    | none =>
      have hitems : templateItems (t :: rest) = templateItems rest := by
        simp [templateItems, ht]
      rw [show runTemplatesAll (t :: rest) s = runTemplatesAll rest s by
        simp [runTemplatesAll, ht]]
      rw [hitems]
      exact ih s hb hnd
    | some res =>
      have hitems : templateItems (t :: rest)
          = res ++ templateItems rest := by
        simp [templateItems, ht]
      rw [show runTemplatesAll (t :: rest) s
          = runTemplatesAll rest
              (processMethodResult ("template_" ++ t.id) res s) by
        simp [runTemplatesAll, ht]]
      obtain ⟨pabs, pb, pnd⟩ :=
        processMethodResult_abs ("template_" ++ t.id) res s hb hnd
      obtain ⟨iabs, ib, ind⟩ :=
        ih (processMethodResult ("template_" ++ t.id) res s) pb pnd
      rw [hitems, List.foldl_append]
      exact ⟨by rw [iabs, pabs], ib, ind⟩

/-- The pure method loop abstracts to the value merge of all job items. -/
lemma runMethodsAll_abs (ms : List MethodRun) :
    ∀ s : OrchState,
      (∀ p ∈ s.combined, p.2 < s.store.length) →
      (s.combined.map Prod.snd).Nodup →
      absCombined (runMethodsAll ms s)
        = (flatItems ms).foldl
            (fun m p => valueMergeOne m p.1 p.2.score) (absCombined s)
      ∧ (∀ p ∈ (runMethodsAll ms s).combined,
          p.2 < (runMethodsAll ms s).store.length)
      ∧ ((runMethodsAll ms s).combined.map Prod.snd).Nodup := by
  induction ms with
  | nil =>
    intro s hb hnd
    exact ⟨by simp [runMethodsAll, flatItems], hb, hnd⟩
  | cons m rest ih =>
    intro s hb hnd
    have hflat : flatItems (m :: rest) = methodItems m ++ flatItems rest := rfl
    cases m with
    | basic ores =>
      cases ores with
      | none =>
        rw [show runMethodsAll (.basic none :: rest) s = runMethodsAll rest s
          from rfl]
        rw [hflat]
        rw [show methodItems (MethodRun.basic none) = [] from rfl,
          List.nil_append]
        exact ih s hb hnd
      | some res =>
        rw [show runMethodsAll (.basic (some res) :: rest) s
            = runMethodsAll rest (processMethodResult "basic" res s) from rfl]
        obtain ⟨pabs, pb, pnd⟩ := processMethodResult_abs "basic" res s hb hnd
        obtain ⟨iabs, ib, ind⟩ :=
          ih (processMethodResult "basic" res s) pb pnd
        rw [hflat, show methodItems (MethodRun.basic (some res)) = res
          from rfl, List.foldl_append]
        exact ⟨by rw [iabs, pabs], ib, ind⟩
    | template ts =>
      rw [show runMethodsAll (.template ts :: rest) s
          = runMethodsAll rest (runTemplatesAll ts s) from rfl]
      obtain ⟨tabs, tb, tnd⟩ := runTemplatesAll_abs ts s hb hnd
      obtain ⟨iabs, ib, ind⟩ := ih (runTemplatesAll ts s) tb tnd
      rw [hflat, show methodItems (MethodRun.template ts) = templateItems ts
        from rfl, List.foldl_append]
      exact ⟨by rw [iabs, tabs], ib, ind⟩

/-- A successful run returns the complete pure-run result and the total
cost. -/
lemma perform_ok_state (ms : List MethodRun) (T : Nat)
    (out : EvaluationOutput) (n : Nat)
    (h : perform_multi_method_evaluation ms T = .ok (out, n)) :
    out = finishJob (runMethodsAll ms initState) ∧ n = totalCost ms := by
  unfold perform_multi_method_evaluation at h
  rcases hrun : runMethods T ms initState with k | s
  · rw [hrun] at h; cases h
  · rw [hrun] at h
    by_cases hT : T ≤ s.elapsed
    · simp [hT] at h
    · simp [hT] at h
      have hs := runMethods_ok_eq T ms initState s hrun
      have helapsed : s.elapsed = totalCost ms := by
        rw [hs, runMethodsAll_elapsed]
        simp [initState]
      exact ⟨by rw [← h.1, hs], by rw [← h.2, helapsed]⟩

/-! ## Claim C1 -/

/-- Claim C1: score merging is a left-fold of binary rounded averages per
category id — for every completed job and category, the combined score
equals the fold that stores the first contribution as-is and replaces the
stored score with round((existing + new) / 2) for each later
contribution; in particular two contributions 70 then 90 combine to 80,
and three contributions 70, 90, 50 combine to 65, not the true mean 70. -/
theorem claim_C1 :
    ∀ (ms : List MethodRun) (T : Nat) (out : EvaluationOutput) (n : Nat),
      perform_multi_method_evaluation ms T = .ok (out, n) →
      (∀ cid : String,
        (out.categories.lookup cid).map (·.score)
          = mergeFold (contribScores ms cid))
      ∧ mergeFold [70, 90] = some 80
      ∧ mergeFold [70, 90, 50] = some 65
      ∧ mergeFold [70, 90, 50] ≠ some 70 := by
  intro ms T out n hok
  obtain ⟨hout, -⟩ := perform_ok_state ms T out n hok
  refine ⟨?_, by decide, by decide, by decide⟩
  intro cid
  subst hout
  have hb0 : ∀ p ∈ (initState).combined, p.2 < (initState).store.length := by
    intro p hp
    cases hp
  have hnd0 : ((initState).combined.map Prod.snd).Nodup := List.nodup_nil
  obtain ⟨habs, -, -⟩ := runMethodsAll_abs ms initState hb0 hnd0
  have hcats : (finishJob (runMethodsAll ms initState)).categories
      = (runMethodsAll ms initState).combined.map fun p =>
          (p.1, (runMethodsAll ms initState).store.getD p.2 default) := rfl
  have h1 : (((runMethodsAll ms initState).combined.map fun p =>
      (p.1, (runMethodsAll ms initState).store.getD p.2 default)).lookup cid)
      = ((runMethodsAll ms initState).combined.lookup cid).map
          (fun idx => (runMethodsAll ms initState).store.getD idx default) :=
    lookup_map_snd (runMethodsAll ms initState).combined
      (fun idx => (runMethodsAll ms initState).store.getD idx default) cid
  rw [hcats, h1, Option.map_map]
  have h2 : ((runMethodsAll ms initState).combined.lookup cid).map
      (fun idx =>
        ((runMethodsAll ms initState).store.getD idx default).score)
      = (absCombined (runMethodsAll ms initState)).lookup cid :=
    (absCombined_lookup _ cid).symm
  rw [show ((fun cr : CategoryResult => cr.score) ∘ fun idx =>
      (runMethodsAll ms initState).store.getD idx default)
      = fun idx =>
        ((runMethodsAll ms initState).store.getD idx default).score from rfl]
  rw [h2, habs]
  have h3 := valueMergeItems_lookup (flatItems ms) (absCombined initState) cid
  rw [h3]
  rfl

/-- Tiny single-method job shared by the C1 and C7 witnesses. -/
def smallJob : List MethodRun := [.basic (some [("plot", mkCat 70)])]

/-- Output of the tiny job. -/
def smallJobOut : EvaluationOutput :=
  { categories := [("plot", mkCat 70)]
    overall_score := 70
    all_results := [("basic", [("plot", mkCat 70)])] }

/-- Witness for C1 at the tiny job. -/
theorem claim_C1_witness :
    (smallJobOut.categories.lookup "plot").map (·.score)
      = mergeFold (contribScores smallJob "plot") :=
  (claim_C1 smallJob 10 smallJobOut 1 (by decide)).1 "plot"

/-! ## Claim C7 -/

/-- Claim C7: for every completed job the overall score is the rounded
arithmetic mean of the scores of the populated combined categories, and
it is 0 when no category was evaluated; the comprehensive evaluation of
the GPT evaluator computes its overall score by the same formula. -/
theorem claim_C7 :
    ∀ (ms : List MethodRun) (T : Nat) (out : EvaluationOutput) (n : Nat),
      perform_multi_method_evaluation ms T = .ok (out, n) →
      (out.overall_score =
        if out.categories.isEmpty then 0
        else pyRoundDiv ((out.categories.map fun p => p.2.score).sum)
          (out.categories.length))
      ∧ ∀ schedule : String → Nat → AttemptOutcome,
          (perform_comprehensive_evaluation schedule).2 =
            if (perform_comprehensive_evaluation schedule).1.isEmpty then 0
            else pyRoundDiv
              (((perform_comprehensive_evaluation schedule).1.map
                fun p => p.2.score).sum)
              ((perform_comprehensive_evaluation schedule).1.length) := by
  have hform : ∀ cats : List (String × CategoryResult),
      overallScoreOf (cats.map fun p => p.2.score)
        = if cats.isEmpty then 0
          else pyRoundDiv ((cats.map fun p => p.2.score).sum) cats.length := by
    intro cats
    unfold overallScoreOf
    cases cats with
    | nil => rfl
    | cons a l => simp [List.length_map]
  intro ms T out n hok
  obtain ⟨hout, -⟩ := perform_ok_state ms T out n hok
  constructor
  · subst hout
    exact hform (finishJob (runMethodsAll ms initState)).categories
  · intro schedule
    exact hform (perform_comprehensive_evaluation schedule).1

/-- Witness for C7 at the tiny job. -/
theorem claim_C7_witness :
    smallJobOut.overall_score =
      if smallJobOut.categories.isEmpty then 0
      else pyRoundDiv ((smallJobOut.categories.map fun p => p.2.score).sum)
        (smallJobOut.categories.length) :=
  (claim_C7 smallJob 10 smallJobOut 1 (by decide)).1
